import Mathlib

/-!
Shallow embedding of the rustvalidity validation library.

Sources embedded here:
* `src/error.rs` — the `ValidationError` error model (`Single` / `Multiple`),
  its constructors `new` and `field`, `merge`, and the `Display` rendering.
* `src/rules/common.rs` — the `Required`, `Length` and `Email` rules
  (`validate_any` over a type-erased value).
* `src/rules/conditional.rs` — the `RequiredIf` rule.
* `src/rules/collection.rs` — the `Each` combinator.
* `src/validator.rs` — the `Validator` rule registry and its
  `validate` / `validate_all` methods.
* `rustvalidity-derive/src/lib.rs` — the shape of the `Validate` impl the
  derive macro generates: one independent check block per attribute, an
  `errors` map filled by `entry(..).or_insert_with(Vec::new).push(..)`, and
  the final `if !errors.is_empty() { Err(Multiple(errors)) } else { Ok(()) }`.

Modelling conventions:
* A Rust `HashMap<String, Vec<String>>` is modelled by its contents, an
  association list without duplicate keys (`FieldMap`).  A real `HashMap`
  guarantees nothing about iteration order; where a theorem depends on the
  order in which entries are visited (the `Display` impl), the order is
  treated as an arbitrary permutation of the entries.
* `&dyn Any` values are modelled by the closed inductive `AnyValue`, one
  constructor per concrete type the embedded rules try to downcast to;
  `downcast_ref::<T>` succeeding corresponds to matching that constructor.
* Rust string length `s.len()` is UTF-8 byte length, modelled by
  `String.utf8ByteSize`.
* Trait objects `Box<dyn Rule>` are modelled by functions
  `AnyValue → Except ValidationError Unit`; the zero-argument condition
  closure of `RequiredIf` is modelled by the `Bool` it returns.
-/

namespace Rustvalidity

deriving instance DecidableEq for Except

/-- Contents of a `HashMap<String, Vec<String>>`: field name to messages. -/
abbrev FieldMap := List (String × List String)

/-- Model of `errors.entry(k).or_insert_with(Vec::new).push(msg)`:
push `msg` onto the entry for `k`, creating the entry if absent. -/
def entryPush (m : FieldMap) (k : String) (msg : String) : FieldMap :=
  match m with
  | [] => [(k, [msg])]
  | (k₀, v) :: rest =>
      if k₀ = k then (k₀, v ++ [msg]) :: rest else (k₀, v) :: entryPush rest k msg

/-- Model of `errs1.entry(field).or_insert_with(Vec::new).extend(messages)`:
append `msgs` to the entry for `k`, creating the entry if absent. -/
def entryExtend (m : FieldMap) (k : String) (msgs : List String) : FieldMap :=
  match m with
  | [] => [(k, msgs)]
  | (k₀, v) :: rest =>
      if k₀ = k then (k₀, v ++ msgs) :: rest else (k₀, v) :: entryExtend rest k msgs

/-- Model of `HashMap::get` on an association list. -/
def lookupMap {α : Type} : List (String × α) → String → Option α
  | [], _ => none
  | (k₀, v) :: rest, k => if k₀ = k then some v else lookupMap rest k

/-- Model of `HashMap::insert`: replace the value for `k` if present,
otherwise add the entry. -/
def mapInsert {α : Type} (m : List (String × α)) (k : String) (v : α) : List (String × α) :=
  match m with
  | [] => [(k, v)]
  | (k₀, v₀) :: rest =>
      if k₀ = k then (k₀, v) :: rest else (k₀, v₀) :: mapInsert rest k v

/-- Messages stored for field `f` (empty list when the field is absent). -/
def msgsAt (m : FieldMap) (f : String) : List String :=
  (lookupMap m f).getD []

/-- `ValidationError` from `src/error.rs`: a single message or a
field-keyed map of messages. -/
inductive ValidationError where
  | Single : String → ValidationError
  | Multiple : FieldMap → ValidationError
deriving DecidableEq

/-- `ValidationError::new` (src/error.rs, line 17). -/
def ValidationError.new (message : String) : ValidationError :=
  ValidationError.Single message

/-- `ValidationError::field` (src/error.rs, line 22): a one-entry map. -/
def ValidationError.field (f message : String) : ValidationError :=
  ValidationError.Multiple [(f, [message])]

/-- The `Multiple`+`Multiple` arm of `merge` (src/error.rs, lines 46-52):
for each entry of `m2`, extend the matching entry of `m1`. -/
def mergeMaps (m1 m2 : FieldMap) : FieldMap :=
  m2.foldl (fun acc p => entryExtend acc p.1 p.2) m1

/-- `ValidationError::merge` (src/error.rs, lines 29-54). -/
def ValidationError.merge : ValidationError → ValidationError → ValidationError
  | ValidationError.Single msg1, ValidationError.Single msg2 =>
      ValidationError.Multiple [("_", [msg1, msg2])]
  | ValidationError.Single msg, ValidationError.Multiple errs =>
      ValidationError.Multiple (entryPush errs "_" msg)
  | ValidationError.Multiple errs, ValidationError.Single msg =>
      ValidationError.Multiple (entryPush errs "_" msg)
  | ValidationError.Multiple errs1, ValidationError.Multiple errs2 =>
      ValidationError.Multiple (mergeMaps errs1 errs2)

/-- One field's lines in the `Display` impl: `  {field}: {msg}\n` per message
(src/error.rs, lines 63-66; `\x7b`-free rendering of the format string). -/
def renderField (f : String) (msgs : List String) : String :=
  msgs.foldl (fun acc m => acc ++ "  " ++ f ++ ": " ++ m ++ "\n") ""

/-- The `Multiple` arm of the `Display` impl, rendering the entries in the
order given by the list.  The real code iterates a `HashMap`, whose order is
an arbitrary permutation of the entries, so theorems about rendering take
the visiting order as a parameter. -/
def renderMultiple (entries : FieldMap) : String :=
  entries.foldl (fun acc p => acc ++ renderField p.1 p.2) "Validation errors:\n"

/-- `Display for ValidationError` (src/error.rs, lines 57-72), with the
stored entry order standing in for one admissible `HashMap` iteration
order. -/
def ValidationError.display : ValidationError → String
  | ValidationError.Single msg => msg
  | ValidationError.Multiple errs => renderMultiple errs

/-- Messages reported for field `f` by a validation outcome. -/
def msgsOf (r : Except ValidationError Unit) (f : String) : List String :=
  match r with
  | Except.error (ValidationError.Multiple m) => msgsAt m f
  | _ => []

/-- A type-erased `&dyn Any` value: one constructor per concrete type the
embedded rules attempt to `downcast_ref` to. -/
inductive AnyValue where
  | VString : String → AnyValue
  | VStr : String → AnyValue
  | VOptString : Option String → AnyValue
  | VVecString : List String → AnyValue
  | VInt : Int → AnyValue
  | VVecInt : List Int → AnyValue
  | VMapStringString : List (String × String) → AnyValue
deriving DecidableEq

/-- `Required::validate_any` (src/rules/common.rs, lines 15-44): the
downcast chain tries `String`, `&str`, `Option<String>`, `Vec<String>`;
any other type falls through to the final `Ok(())` — the chain has no
`else` arm. -/
def Required.validate_any : AnyValue → Except ValidationError Unit
  | AnyValue.VString s =>
      if s.isEmpty then Except.error (ValidationError.new "Value is required")
      else Except.ok ()
  | AnyValue.VStr s =>
      if s.isEmpty then Except.error (ValidationError.new "Value is required")
      else Except.ok ()
  | AnyValue.VOptString o =>
      if o.isNone then Except.error (ValidationError.new "Value is required")
      else Except.ok ()
  | AnyValue.VVecString v =>
      if v.isEmpty then Except.error (ValidationError.new "Value is required")
      else Except.ok ()
  | _ => Except.ok ()

/-- Length check on a byte/element count used by `Length::validate_any`
for the string branches. -/
def lengthCheckString (min : Nat) (max : Option Nat) (len : Nat) :
    Except ValidationError Unit :=
  if len < min then
    Except.error (ValidationError.new ("Length must be at least " ++ toString min))
  else
    match max with
    | some mx =>
        if len > mx then
          Except.error (ValidationError.new ("Length must not exceed " ++ toString mx))
        else Except.ok ()
    | none => Except.ok ()

/-- Length check used by `Length::validate_any` for the `Vec<String>`
branch (different message wording). -/
def lengthCheckVec (min : Nat) (max : Option Nat) (len : Nat) :
    Except ValidationError Unit :=
  if len < min then
    Except.error (ValidationError.new
      ("Collection must have at least " ++ toString min ++ " items"))
  else
    match max with
    | some mx =>
        if len > mx then
          Except.error (ValidationError.new
            ("Collection must not exceed " ++ toString mx ++ " items"))
        else Except.ok ()
    | none => Except.ok ()

/-- `Length::validate_any` (src/rules/common.rs, lines 52-95): tries
`String`, `&str`, `Vec<String>`, and unlike `Required` ends in an `else`
arm returning the unsupported-type error. -/
def Length.validate_any (min : Nat) (max : Option Nat) :
    AnyValue → Except ValidationError Unit
  | AnyValue.VString s => lengthCheckString min max s.utf8ByteSize
  | AnyValue.VStr s => lengthCheckString min max s.utf8ByteSize
  | AnyValue.VVecString v => lengthCheckVec min max v.length
  | _ => Except.error (ValidationError.new "Value must be a string or collection")

/-- Character class `[a-zA-Z0-9._%+-]` of the email regex's local part. -/
def emailLocalChar (c : Char) : Bool :=
  c.isAlpha || c.isDigit || c == '.' || c == '_' || c == '%' || c == '+' || c == '-'

/-- Character class `[a-zA-Z0-9.-]` of the email regex's domain part. -/
def emailDomainChar (c : Char) : Bool :=
  c.isAlpha || c.isDigit || c == '.' || c == '-'

/-- Whether the anchored regex of `validate_email` matches `s`: some split
`local ++ "@" ++ domain ++ "." ++ tld` with nonempty `local` over the local
class, nonempty `domain` over the domain class, and `tld` at least two
alphabetic characters.  `i` ranges over the position of the `@`, `j` over
the position of the final dot. -/
def emailRegexMatch (s : String) : Bool :=
  let cs := s.toList
  (List.range cs.length).any fun i =>
    (List.range cs.length).any fun j =>
      decide (1 ≤ i) && decide (i + 1 < j) && decide (j + 3 ≤ cs.length) &&
      (cs.getD i ' ' == '@') && (cs.getD j ' ' == '.') &&
      (cs.take i).all emailLocalChar &&
      ((cs.drop (i + 1)).take (j - (i + 1))).all emailDomainChar &&
      (cs.drop (j + 1)).all Char.isAlpha

/-- `validate_email` (src/rules/common.rs, lines 133-145); the `check_dns`
flag is accepted and ignored, as in the source. -/
def validate_email (email : String) (check_dns : Bool) : Except ValidationError Unit :=
  if !emailRegexMatch email then
    Except.error (ValidationError.new "Invalid email format")
  else Except.ok ()

/-- `Email::validate_any` (src/rules/common.rs, lines 121-131). -/
def Email.validate_any (check_dns : Bool) : AnyValue → Except ValidationError Unit
  | AnyValue.VString s => validate_email s check_dns
  | AnyValue.VStr s => validate_email s check_dns
  | _ => Except.error (ValidationError.new "Value must be a string")

/-- `RequiredIf::validate_any` (src/rules/conditional.rs, lines 41-66); the
`condition` closure is modelled by the boolean it evaluates to at the
call. -/
def RequiredIf.validate_any (condition : Bool) (value : AnyValue) :
    Except ValidationError Unit :=
  if condition then
    match value with
    | AnyValue.VString s =>
        if s.isEmpty then Except.error (ValidationError.new "Value is required")
        else Except.ok ()
    | AnyValue.VStr s =>
        if s.isEmpty then Except.error (ValidationError.new "Value is required")
        else Except.ok ()
    | AnyValue.VOptString o =>
        if o.isNone then Except.error (ValidationError.new "Value is required")
        else Except.ok ()
    | AnyValue.VVecString v =>
        if v.isEmpty then Except.error (ValidationError.new "Value is required")
        else Except.ok ()
    | _ => Except.ok ()
  else Except.ok ()

/-- The wrapped rule of a combinator: a `Box<dyn Rule>`. -/
abbrev RuleFn := AnyValue → Except ValidationError Unit

/-- The `Vec<String>` loop of `Each::validate_any` (src/rules/collection.rs,
lines 80-87), carrying the running `enumerate` index `i`. -/
def eachVecString (r : RuleFn) : Nat → List String → Except ValidationError Unit
  | _, [] => Except.ok ()
  | i, item :: rest =>
      match r (AnyValue.VString item) with
      | Except.error err =>
          Except.error (ValidationError.new
            ("Item at index " ++ toString i ++ " failed validation: " ++ err.display))
      | Except.ok _ => eachVecString r (i + 1) rest

/-- The `Vec<i32>` loop of `Each::validate_any` (src/rules/collection.rs,
lines 88-95). -/
def eachVecInt (r : RuleFn) : Nat → List Int → Except ValidationError Unit
  | _, [] => Except.ok ()
  | i, item :: rest =>
      match r (AnyValue.VInt item) with
      | Except.error err =>
          Except.error (ValidationError.new
            ("Item at index " ++ toString i ++ " failed validation: " ++ err.display))
      | Except.ok _ => eachVecInt r (i + 1) rest

/-- The `HashMap<String, String>` loop of `Each::validate_any`
(src/rules/collection.rs, lines 96-103), visiting entries in the order of
the modelled list (one admissible `HashMap` iteration order). -/
def eachMapString (r : RuleFn) : List (String × String) → Except ValidationError Unit
  | [] => Except.ok ()
  | (key, v) :: rest =>
      match r (AnyValue.VString v) with
      | Except.error err =>
          Except.error (ValidationError.new
            ("Value for key " ++ String.singleton (Char.ofNat 39) ++ key ++
              String.singleton (Char.ofNat 39) ++ " failed validation: " ++ err.display))
      | Except.ok _ => eachMapString r rest

/-- `Each::validate_any` (src/rules/collection.rs, lines 78-110). -/
def Each.validate_any (r : RuleFn) : AnyValue → Except ValidationError Unit
  | AnyValue.VVecString vec => eachVecString r 0 vec
  | AnyValue.VVecInt vec => eachVecInt r 0 vec
  | AnyValue.VMapStringString m => eachMapString r m
  | _ => Except.error (ValidationError.new "Value must be a collection or map")

/-- `Validator` (src/validator.rs, lines 15-17): a name-keyed store of
rules; the rule type is a parameter standing for `Box<dyn Rule>`. -/
structure Validator (Rule : Type) where
  rules : List (String × Rule)

/-- `Validator::new` (src/validator.rs, lines 21-25). -/
def Validator.new {Rule : Type} : Validator Rule :=
  ⟨[]⟩

/-- `Validator::add_rule` (src/validator.rs, lines 28-33):
`self.rules.insert(name, rule)`. -/
def Validator.add_rule {Rule : Type} (self : Validator Rule) (name : String)
    (rule : Rule) : Validator Rule :=
  ⟨mapInsert self.rules name rule⟩

/-- `Validator::get_rule` (src/validator.rs, lines 36-38). -/
def Validator.get_rule {Rule : Type} (self : Validator Rule) (name : String) :
    Option Rule :=
  lookupMap self.rules name

/-- `Validator::validate` (src/validator.rs, lines 41-44): delegates to the
value's `Validate::validate`, modelled by the function `valueValidate`. -/
def Validator.validate {Rule T : Type} (self : Validator Rule)
    (valueValidate : T → Except ValidationError Unit) (value : T) :
    Except ValidationError Unit :=
  valueValidate value

/-- `Validator::validate_all` (src/validator.rs, lines 47-50): same body as
`validate`. -/
def Validator.validate_all {Rule T : Type} (self : Validator Rule)
    (valueValidate : T → Except ValidationError Unit) (value : T) :
    Except ValidationError Unit :=
  valueValidate value

/-- One check block of a derive-generated `Validate::validate`
(rustvalidity-derive/src/lib.rs, e.g. lines 63-67): on failure, push the
displayed error onto the entry of the field named by the block; on success,
leave `errors` unchanged. -/
def checkStep (errors : FieldMap) (c : String × Except ValidationError Unit) : FieldMap :=
  match c.2 with
  | Except.error err => entryPush errors c.1 err.display
  | Except.ok _ => errors

/-- The error-collection loop of a derive-generated `Validate::validate`
(rustvalidity-derive/src/lib.rs, lines 282-284): each check block runs
unconditionally in attribute order. -/
def runFieldChecks (checks : List (String × Except ValidationError Unit)) : FieldMap :=
  checks.foldl checkStep []

/-- The tail of a derive-generated `Validate::validate`
(rustvalidity-derive/src/lib.rs, lines 287-291): `Err(Multiple(errors))`
when any errors were collected, `Ok(())` otherwise. -/
def deriveValidate (checks : List (String × Except ValidationError Unit)) :
    Except ValidationError Unit :=
  let errors := runFieldChecks checks
  if errors.isEmpty then Except.ok () else Except.error (ValidationError.Multiple errors)

/-- The generated `Validate::validate` for a struct with one field
`email: String` carrying `#[validate(required, email)]`: the derive macro
emits one independent check block per attribute (lines 63-71 of
rustvalidity-derive/src/lib.rs), the `required` block first and the `email`
block after it, with `Email \x7b check_dns: false \x7d` pre-registered
(line 272). -/
def userEmailValidate (email : String) : Except ValidationError Unit :=
  deriveValidate
    [("email", Required.validate_any (AnyValue.VString email)),
     ("email", Email.validate_any false (AnyValue.VString email))]

/-- Error models reachable through the public constructors of
`ValidationError` (`new`, `field`, `merge`). -/
inductive Built : ValidationError → Prop
  | new : ∀ msg, Built (ValidationError.new msg)
  | field : ∀ f m, Built (ValidationError.field f m)
  | merge : ∀ a b, Built a → Built b → Built (a.merge b)

/-- The non-emptiness invariant of the error model: a field map, when
present, has at least one entry and no entry with an empty message list. -/
def goodModel : ValidationError → Prop
  | ValidationError.Single _ => True
  | ValidationError.Multiple m => m ≠ [] ∧ ∀ p ∈ m, p.2 ≠ ([] : List String)

/-! Helper lemmas about the association-list model of `HashMap`. -/

theorem lookupMap_mapInsert_self {α : Type} (m : List (String × α)) (k : String) (v : α) :
    lookupMap (mapInsert m k v) k = some v := by
  induction m with
  | nil => simp [mapInsert, lookupMap]
  | cons p rest ih =>
      obtain ⟨k₀, v₀⟩ := p
      by_cases h : k₀ = k
      · simp [mapInsert, lookupMap, h]
      · simp [mapInsert, lookupMap, h, ih]

theorem lookupMap_mapInsert_ne {α : Type} (m : List (String × α)) (k k₁ : String) (v : α)
    (h : k₁ ≠ k) : lookupMap (mapInsert m k v) k₁ = lookupMap m k₁ := by
  induction m with
  | nil => simp [mapInsert, lookupMap, Ne.symm h]
  | cons p rest ih =>
      obtain ⟨k₀, v₀⟩ := p
      by_cases hk : k₀ = k
      · subst hk
        simp [mapInsert, lookupMap, Ne.symm h]
      · simp only [mapInsert, if_neg hk, lookupMap]
        by_cases hk₁ : k₀ = k₁
        · simp [hk₁]
        · simp [hk₁, ih]

theorem lookupMap_entryExtend_self (m : FieldMap) (k : String) (v : List String) :
    lookupMap (entryExtend m k v) k = some (msgsAt m k ++ v) := by
  induction m with
  | nil => simp [entryExtend, lookupMap, msgsAt]
  | cons p rest ih =>
      obtain ⟨k₀, v₀⟩ := p
      by_cases h : k₀ = k
      · simp [entryExtend, lookupMap, msgsAt, h]
      · simp [entryExtend, lookupMap, msgsAt, h, ih]

theorem lookupMap_entryExtend_ne (m : FieldMap) (k k₁ : String) (v : List String)
    (h : k₁ ≠ k) : lookupMap (entryExtend m k v) k₁ = lookupMap m k₁ := by
  induction m with
  | nil => simp [entryExtend, lookupMap, Ne.symm h]
  | cons p rest ih =>
      obtain ⟨k₀, v₀⟩ := p
      by_cases hk : k₀ = k
      · subst hk
        simp [entryExtend, lookupMap, Ne.symm h]
      · simp only [entryExtend, if_neg hk, lookupMap]
        by_cases hk₁ : k₀ = k₁
        · simp [hk₁]
        · simp [hk₁, ih]

theorem lookupMap_eq_none_of_not_mem {α : Type} (m : List (String × α)) (k : String)
    (h : k ∉ m.map Prod.fst) : lookupMap m k = none := by
  induction m with
  | nil => rfl
  | cons p rest ih =>
      obtain ⟨k₀, v₀⟩ := p
      simp only [List.map_cons, List.mem_cons, not_or] at h
      simp [lookupMap, Ne.symm h.1, ih h.2]

theorem msgsAt_mergeMaps (m2 : FieldMap) (hnd : (m2.map Prod.fst).Nodup)
    (m1 : FieldMap) (f : String) :
    msgsAt (mergeMaps m1 m2) f = msgsAt m1 f ++ msgsAt m2 f := by
  induction m2 generalizing m1 with
  | nil => simp [mergeMaps, msgsAt, lookupMap]
  | cons p rest ih =>
      obtain ⟨k, v⟩ := p
      simp only [List.map_cons, List.nodup_cons] at hnd
      have hstep : mergeMaps m1 ((k, v) :: rest) = mergeMaps (entryExtend m1 k v) rest := rfl
      rw [hstep, ih hnd.2]
      by_cases hf : f = k
      · subst hf
        have h₁ : msgsAt (entryExtend m1 f v) f = msgsAt m1 f ++ v := by
          simp [msgsAt, lookupMap_entryExtend_self]
        have h₂ : msgsAt rest f = [] := by
          simp [msgsAt, lookupMap_eq_none_of_not_mem rest f hnd.1]
        have h₃ : msgsAt ((f, v) :: rest) f = v := by simp [msgsAt, lookupMap]
        rw [h₁, h₂, h₃, List.append_nil]
      · have h₁ : msgsAt (entryExtend m1 k v) f = msgsAt m1 f := by
          simp [msgsAt, lookupMap_entryExtend_ne m1 k f v hf]
        have h₂ : msgsAt ((k, v) :: rest) f = msgsAt rest f := by
          simp [msgsAt, lookupMap, Ne.symm hf]
        rw [h₁, h₂]

theorem entryPush_ne_nil (m : FieldMap) (k msg : String) : entryPush m k msg ≠ [] := by
  cases m with
  | nil => simp [entryPush]
  | cons p rest =>
      obtain ⟨k₀, v⟩ := p
      by_cases h : k₀ = k <;> simp [entryPush, h]

theorem entryPush_mem (m : FieldMap) (k msg : String)
    (hm : ∀ p ∈ m, p.2 ≠ ([] : List String)) :
    ∀ p ∈ entryPush m k msg, p.2 ≠ ([] : List String) := by
  induction m with
  | nil =>
      intro p hp
      simp only [entryPush, List.mem_singleton] at hp
      subst hp
      simp
  | cons q rest ih =>
      obtain ⟨k₀, v⟩ := q
      intro p hp
      by_cases h : k₀ = k
      · simp only [entryPush, if_pos h, List.mem_cons] at hp
        rcases hp with hp | hp
        · subst hp; simp
        · exact hm p (List.mem_cons_of_mem _ hp)
      · simp only [entryPush, if_neg h, List.mem_cons] at hp
        rcases hp with hp | hp
        · subst hp; exact hm _ (List.mem_cons_self _ _)
        · exact ih (fun q hq => hm q (List.mem_cons_of_mem _ hq)) p hp

theorem entryExtend_ne_nil (m : FieldMap) (k : String) (v : List String) :
    entryExtend m k v ≠ [] := by
  cases m with
  | nil => simp [entryExtend]
  | cons p rest =>
      obtain ⟨k₀, v₀⟩ := p
      by_cases h : k₀ = k <;> simp [entryExtend, h]

theorem entryExtend_mem (m : FieldMap) (k : String) (v : List String)
    (hm : ∀ p ∈ m, p.2 ≠ ([] : List String)) (hv : v ≠ []) :
    ∀ p ∈ entryExtend m k v, p.2 ≠ ([] : List String) := by
  induction m with
  | nil =>
      intro p hp
      simp only [entryExtend, List.mem_singleton] at hp
      subst hp
      exact hv
  | cons q rest ih =>
      obtain ⟨k₀, v₀⟩ := q
      intro p hp
      by_cases h : k₀ = k
      · simp only [entryExtend, if_pos h, List.mem_cons] at hp
        rcases hp with hp | hp
        · subst hp
          simp only [ne_eq, List.append_eq_nil, not_and]
          intro _
          exact hv
        · exact hm p (List.mem_cons_of_mem _ hp)
      · simp only [entryExtend, if_neg h, List.mem_cons] at hp
        rcases hp with hp | hp
        · subst hp; exact hm _ (List.mem_cons_self _ _)
        · exact ih (fun q hq => hm q (List.mem_cons_of_mem _ hq)) p hp

theorem mergeMaps_good : ∀ (m2 : FieldMap), (∀ p ∈ m2, p.2 ≠ ([] : List String)) →
    ∀ (m1 : FieldMap), m1 ≠ [] → (∀ p ∈ m1, p.2 ≠ ([] : List String)) →
      mergeMaps m1 m2 ≠ [] ∧ ∀ p ∈ mergeMaps m1 m2, p.2 ≠ ([] : List String) := by
  intro m2
  induction m2 with
  | nil => intro _ m1 h hm; exact ⟨h, hm⟩
  | cons q rest ih =>
      intro h2 m1 _ hm
      have hq : q.2 ≠ ([] : List String) := h2 q (List.mem_cons_self _ _)
      have hrest : ∀ p ∈ rest, p.2 ≠ ([] : List String) :=
        fun p hp => h2 p (List.mem_cons_of_mem _ hp)
      have hstep : mergeMaps m1 (q :: rest) = mergeMaps (entryExtend m1 q.1 q.2) rest := rfl
      rw [hstep]
      exact ih hrest (entryExtend m1 q.1 q.2) (entryExtend_ne_nil m1 q.1 q.2)
        (entryExtend_mem m1 q.1 q.2 hm hq)

theorem built_goodModel : ∀ e, Built e → goodModel e := by
  intro e hb
  induction hb with
  | new msg => trivial
  | field f m =>
      refine ⟨by simp, ?_⟩
      intro p hp
      simp only [ValidationError.field, List.mem_singleton] at hp
      subst hp
      simp
  | merge a b _ _ iha ihb =>
      cases a with
      | Single msg1 =>
          cases b with
          | Single msg2 =>
              refine ⟨by simp, ?_⟩
              intro p hp
              simp only [ValidationError.merge, List.mem_singleton] at hp
              subst hp
              simp
          | Multiple m =>
              exact ⟨entryPush_ne_nil m "_" msg1, entryPush_mem m "_" msg1 ihb.2⟩
      | Multiple m1 =>
          cases b with
          | Single msg =>
              exact ⟨entryPush_ne_nil m1 "_" msg, entryPush_mem m1 "_" msg iha.2⟩
          | Multiple m2 =>
              exact mergeMaps_good m2 ihb.2 m1 iha.1 iha.2

theorem eachVecString_append_ok (r : RuleFn) (pre : List String)
    (h : ∀ y ∈ pre, r (AnyValue.VString y) = Except.ok ()) :
    ∀ (i : Nat) (rest : List String),
      eachVecString r i (pre ++ rest) = eachVecString r (i + pre.length) rest := by
  induction pre with
  | nil => intro i rest; simp [eachVecString]
  | cons y ys ih =>
      intro i rest
      have hy : r (AnyValue.VString y) = Except.ok () := h y (List.mem_cons_self _ _)
      have hys : ∀ y ∈ ys, r (AnyValue.VString y) = Except.ok () :=
        fun z hz => h z (List.mem_cons_of_mem _ hz)
      show eachVecString r i (y :: (ys ++ rest)) = _
      have harith : i + 1 + ys.length = i + (y :: ys).length := by
        simp only [List.length_cons]
        omega
      rw [eachVecString, hy, ih hys (i + 1) rest, harith]

theorem foldl_checkStep_eq_nil :
    ∀ (checks : List (String × Except ValidationError Unit)) (acc : FieldMap),
      (checks.foldl checkStep acc = [] ↔
        acc = [] ∧ ∀ c ∈ checks, c.2 = Except.ok ()) := by
  intro checks
  induction checks with
  | nil => intro acc; simp
  | cons c cs ih =>
      intro acc
      rw [List.foldl_cons, ih]
      cases hc : c.2 with
      | ok u =>
          cases u
          have hstep : checkStep acc c = acc := by simp [checkStep, hc]
          rw [hstep]
          simp [List.forall_mem_cons, hc]
      | error err =>
          have hstep : checkStep acc c = entryPush acc c.1 err.display := by
            simp [checkStep, hc]
          rw [hstep]
          simp [List.forall_mem_cons, hc, entryPush_ne_nil acc c.1 err.display]

theorem deriveValidate_ok_iff (checks : List (String × Except ValidationError Unit)) :
    deriveValidate checks = Except.ok () ↔ ∀ c ∈ checks, c.2 = Except.ok () := by
  have h := foldl_checkStep_eq_nil checks []
  simp only [true_and, eq_self_iff_true] at h
  unfold deriveValidate runFieldChecks
  by_cases hc : List.foldl checkStep [] checks = []
  · simp only [hc]
    simp only [List.isEmpty_nil, if_true]
    constructor
    · intro _ c hcm
      exact h.mp hc c hcm
    · intro _
      trivial
  · have : (List.foldl checkStep [] checks).isEmpty = false := by
      cases hfe : List.foldl checkStep [] checks
      · exact absurd hfe hc
      · rfl
    simp only [this]
    constructor
    · intro hocc; exact absurd hocc (by simp)
    · intro hall; exact absurd (h.mpr hall) hc

/-- Claim C7: whenever the condition of `RequiredIf` evaluates to true,
`RequiredIf.validate_any` returns exactly the same result (same pass/fail
outcome and same message) as the base `Required.validate_any`, on every
value; whenever the condition evaluates to false, it returns `Ok` on every
value. -/
theorem requiredIf_refines_required :
    (∀ v : AnyValue, RequiredIf.validate_any true v = Required.validate_any v) ∧
    (∀ v : AnyValue, RequiredIf.validate_any false v = Except.ok ()) := by
  constructor
  · intro v; cases v <;> rfl
  · intro v; rfl

/-- Claim C9: `Required` applied to an `Option<String>` fails only when the
option is `None`; a present-but-empty `Some("")` passes, while a plain
`String` value `""` fails. -/
theorem required_option_some_empty_passes :
    (∀ s : String, Required.validate_any (AnyValue.VOptString (some s)) = Except.ok ()) ∧
    Required.validate_any (AnyValue.VOptString none) =
      Except.error (ValidationError.Single "Value is required") ∧
    Required.validate_any (AnyValue.VOptString (some "")) = Except.ok () ∧
    Required.validate_any (AnyValue.VString "") =
      Except.error (ValidationError.Single "Value is required") :=
  ⟨fun _ => rfl, by decide, by decide, by decide⟩

/-- Claim C10: `Validator::validate` and `Validator::validate_all` are
extensionally equal — for every validator state and value both delegate to
the value's `Validate::validate` and return the identical result. -/
theorem validate_eq_validate_all :
    ∀ (Rule T : Type) (v : Validator Rule) (f : T → Except ValidationError Unit) (x : T),
      v.validate f x = f x ∧ v.validate_all f x = f x ∧ v.validate f x = v.validate_all f x :=
  fun _ _ _ _ _ => ⟨rfl, rfl, rfl⟩

/-- Claim C2, counterexample: `Required.validate_any` applied to a value of
an unsupported concrete type (an `i32`) returns `Ok`, not the
unsupported-type error the claim requires — its downcast chain has no
`else` arm and falls through to `Ok(())`. -/
theorem required_unsupported_type_cex :
    Required.validate_any (AnyValue.VInt 5) = Except.ok () := rfl

/-- Claim C2, amended: rules whose downcast chain ends in an `else` arm
(such as `Length`) return the fixed unsupported-type error on every value
of an unsupported concrete type, but `Required` silently returns `Ok` on
such values (e.g. any `i32` or `Vec<i32>`). -/
theorem unsupported_type_required_vs_length :
    (∀ n : Int, Required.validate_any (AnyValue.VInt n) = Except.ok ()) ∧
    (∀ v : List Int, Required.validate_any (AnyValue.VVecInt v) = Except.ok ()) ∧
    (∀ (min : Nat) (max : Option Nat) (n : Int),
        Length.validate_any min max (AnyValue.VInt n) =
          Except.error (ValidationError.Single "Value must be a string or collection")) :=
  ⟨fun _ => rfl, fun _ => rfl, fun _ _ _ => rfl⟩

/-- Claim C1, counterexample: for field `email` declared `required, email`
validated against `""`, the derive-generated chain does NOT short-circuit —
the error model carries two messages for `email` (so not exactly one), and
the email-format message is present, showing the email check ran. -/
theorem required_no_short_circuit_cex :
    msgsOf (userEmailValidate "") "email" = ["Value is required", "Invalid email format"] ∧
    (msgsOf (userEmailValidate "") "email").length ≠ 1 ∧
    "Invalid email format" ∈ msgsOf (userEmailValidate "") "email" :=
  ⟨by decide, by decide, by decide⟩

/-- Claim C1, amended: for field `email` declared `required, email`
validated against `""`, every check in the chain runs independently; the
result is an error model whose field `email` carries exactly the two
messages, the required-violation followed by the email-format violation, in
declaration order. -/
theorem required_email_chain_collects_both :
    userEmailValidate "" =
      Except.error (ValidationError.Multiple
        [("email", ["Value is required", "Invalid email format"])]) := by decide

/-- Claim C3: the `Display` rendering is NOT stable in the claimed sense —
the field order is the backing `HashMap` iteration order, an arbitrary
permutation of the entries, and two admissible permutations of the same
two-field error model render different strings.  (With the entry order
fixed, `ValidationError.display` is of course a function; what fails is
insertion-order stability.) -/
theorem display_order_not_insertion_stable :
    List.Perm [("a", ["x"]), ("b", ["y"])] [("b", ["y"]), ("a", ["x"])] ∧
    ValidationError.display (ValidationError.Multiple [("a", ["x"]), ("b", ["y"])]) ≠
      ValidationError.display (ValidationError.Multiple [("b", ["y"]), ("a", ["x"])]) :=
  ⟨List.Perm.swap ("b", ["y"]) ("a", ["x"]) [], by decide⟩

/-- Claim C4: `merge` on two field-keyed error models is a field-wise union
concatenating overlapping fields in a-then-b order; in particular merging
`field("a","x")` with `field("a","y")` yields field `a` with messages
`["x","y"]` in that order. -/
theorem merge_field_messages_concat :
    (ValidationError.field "a" "x").merge (ValidationError.field "a" "y") =
      ValidationError.Multiple [("a", ["x", "y"])] ∧
    ∀ (m1 m2 : FieldMap) (f : String), (m2.map Prod.fst).Nodup →
      (ValidationError.Multiple m1).merge (ValidationError.Multiple m2) =
        ValidationError.Multiple (mergeMaps m1 m2) ∧
      msgsAt (mergeMaps m1 m2) f = msgsAt m1 f ++ msgsAt m2 f := by
  refine ⟨by decide, ?_⟩
  intro m1 m2 f h
  exact ⟨rfl, msgsAt_mergeMaps m2 h m1 f⟩

/-- Witness for claim C4 at concrete one-field maps. -/
theorem merge_field_messages_concat_witness :
    msgsAt (mergeMaps [("a", ["x"])] [("a", ["y"])]) "a" =
      msgsAt [("a", ["x"])] "a" ++ msgsAt [("a", ["y"])] "a" :=
  (merge_field_messages_concat.2 [("a", ["x"])] [("a", ["y"])] "a" (by decide)).2

/-- Claim C5: after `add_rule n r` a lookup of `n` returns exactly `r`;
registering `r1` then `r2` under the same name makes lookup return `r2`
(silent overwrite-wins); lookup on a fresh registry returns `none`, and
registering under a different name leaves a lookup unchanged. -/
theorem registry_register_lookup :
    (∀ (Rule : Type) (v : Validator Rule) (n : String) (r : Rule),
        (v.add_rule n r).get_rule n = some r) ∧
    (∀ (Rule : Type) (v : Validator Rule) (n : String) (r1 r2 : Rule),
        ((v.add_rule n r1).add_rule n r2).get_rule n = some r2) ∧
    (∀ (Rule : Type) (n : String), (Validator.new : Validator Rule).get_rule n = none) ∧
    (∀ (Rule : Type) (v : Validator Rule) (n n₁ : String) (r : Rule), n₁ ≠ n →
        (v.add_rule n₁ r).get_rule n = v.get_rule n) := by
  refine ⟨?_, ?_, ?_, ?_⟩
  · intro Rule v n r
    exact lookupMap_mapInsert_self v.rules n r
  · intro Rule v n r1 r2
    exact lookupMap_mapInsert_self _ n r2
  · intro Rule n; rfl
  · intro Rule v n n₁ r h
    exact lookupMap_mapInsert_ne v.rules n₁ n r (Ne.symm h)

/-- Witness for claim C5 at a concrete registry over `Nat`-coded rules. -/
theorem registry_register_lookup_witness :
    ((Validator.new : Validator Nat).add_rule "b" 7).get_rule "a" =
      (Validator.new : Validator Nat).get_rule "a" :=
  registry_register_lookup.2.2.2 Nat Validator.new "a" "b" 7 (by decide)

/-- Claim C6: `Each` applies the wrapped rule to the elements of a
`Vec<String>` in order and fails fast at the first failing element,
reporting its index in the message; the result does not depend on the
wrapped rule's behaviour on any later element (any rule agreeing up to the
failure point, over any tail, yields the identical result). -/
theorem each_fail_fast :
    ∀ (r r₁ : RuleFn) (pre : List String) (x : String) (rest rest₁ : List String) (e : String),
      (∀ y ∈ pre, r (AnyValue.VString y) = Except.ok ()) →
      (∀ y ∈ pre, r₁ (AnyValue.VString y) = Except.ok ()) →
      r (AnyValue.VString x) = Except.error (ValidationError.Single e) →
      r₁ (AnyValue.VString x) = Except.error (ValidationError.Single e) →
      Each.validate_any r (AnyValue.VVecString (pre ++ x :: rest)) =
        Except.error (ValidationError.Single
          ("Item at index " ++ toString pre.length ++ " failed validation: " ++ e)) ∧
      Each.validate_any r (AnyValue.VVecString (pre ++ x :: rest)) =
        Each.validate_any r₁ (AnyValue.VVecString (pre ++ x :: rest₁)) := by
  intro r r₁ pre x rest rest₁ e h h₁ hx hx₁
  have key : ∀ (r₂ : RuleFn) (rest₂ : List String),
      (∀ y ∈ pre, r₂ (AnyValue.VString y) = Except.ok ()) →
      r₂ (AnyValue.VString x) = Except.error (ValidationError.Single e) →
      Each.validate_any r₂ (AnyValue.VVecString (pre ++ x :: rest₂)) =
        Except.error (ValidationError.Single
          ("Item at index " ++ toString pre.length ++ " failed validation: " ++ e)) := by
    intro r₂ rest₂ hok hxe
    show eachVecString r₂ 0 (pre ++ x :: rest₂) = _
    rw [eachVecString_append_ok r₂ pre hok 0 (x :: rest₂)]
    rw [eachVecString, hxe]
    simp [ValidationError.display, ValidationError.new]
  exact ⟨key r rest h hx, (key r rest h hx).trans (key r₁ rest₁ h₁ hx₁).symm⟩

/-- Witness for claim C6: `Each` with `Required` over `["", "ok"]` fails at
index 0, and the result coincides with that of a rule that differs from
`Required` everywhere past the failing element, run over a different
tail. -/
theorem each_fail_fast_witness :
    Each.validate_any Required.validate_any (AnyValue.VVecString ["", "ok"]) =
      Except.error (ValidationError.Single
        "Item at index 0 failed validation: Value is required") ∧
    Each.validate_any Required.validate_any (AnyValue.VVecString ["", "ok"]) =
      Each.validate_any (fun _ => Except.error (ValidationError.Single "Value is required"))
        (AnyValue.VVecString [""]) := by
  have h := each_fail_fast Required.validate_any
      (fun _ => Except.error (ValidationError.Single "Value is required"))
      [] "" ["ok"] [] "Value is required"
      (by intro y hy; exact absurd hy (List.not_mem_nil y))
      (by intro y hy; exact absurd hy (List.not_mem_nil y))
      (by decide) rfl
  exact ⟨h.1.trans (by decide), h.1.symm.trans (h.1.trans h.2)⟩

/-- Claim C8: every error model built through the public constructors
(`new`, `field`, `merge`) satisfies the non-emptiness invariant; every
merge yields a `Multiple` with at least one field carrying at least one
message; and a derive-generated validation pass returns `Ok` exactly when
no check produced a message. -/
theorem error_model_never_empty :
    (∀ e, Built e → goodModel e) ∧
    (∀ a b, Built a → Built b →
        ∃ m, a.merge b = ValidationError.Multiple m ∧ m ≠ [] ∧
          ∀ p ∈ m, p.2 ≠ ([] : List String)) ∧
    (∀ checks, deriveValidate checks = Except.ok () ↔
        ∀ c ∈ checks, c.2 = Except.ok ()) := by
  refine ⟨built_goodModel, ?_, deriveValidate_ok_iff⟩
  intro a b ha hb
  have hg := built_goodModel _ (Built.merge a b ha hb)
  cases a <;> cases b <;> exact ⟨_, rfl, hg.1, hg.2⟩

/-- Witness for claim C8 at concrete constructed error models. -/
theorem error_model_never_empty_witness :
    goodModel (ValidationError.field "a" "x") ∧
    (∃ m, (ValidationError.field "a" "x").merge (ValidationError.new "y") =
        ValidationError.Multiple m ∧ m ≠ [] ∧ ∀ p ∈ m, p.2 ≠ ([] : List String)) :=
  ⟨error_model_never_empty.1 _ (Built.field "a" "x"),
   error_model_never_empty.2.1 _ _ (Built.field "a" "x") (Built.new "y")⟩

end Rustvalidity
